import Mathlib

/-!
Verification of the company-analysis tool (`src/main.py`) against its
natural-language specification.

The program is a Streamlit application that, given a company name,

* formats a static catalog of 25 question templates (six topic groups)
  with the company name (`q.format(company_name=company_name)`),
* dispatches each group's questions in parallel to the Perplexity search
  API (`search_perplexity`, `joblib.Parallel`),
* rewrites inline citation markers in every answer
  (`content.replace(f"[{i}]", f"({i}][{citation})")`),
* serializes every successful group's question-to-answer mapping with
  `json.dumps(results, indent=4)` and joins the serializations with the
  separator `"\n--------------\n"`,
* sends the combined transcript to the OpenAI API to generate a guide and
  offers `f"{combined_info}\n--------------\n{conversation_topics}"` for
  download.

Strings are embedded as `List Char`.  Python's `str.replace` (for a
non-empty pattern) is embedded as the fuel-indexed structural recursion
`replaceAll`; the fuel equals the length of the subject string, which is
enough because each step consumes at least one character.  External
effects (HTTP transport, the two APIs) are embedded as explicit oracle
functions; an `Option`-valued oracle result `none` stands for a raised
exception.
-/

namespace BizdevHelper

/-- Auxiliary worker for `replaceAll`: scans `s`, replacing every
left-to-right non-overlapping occurrence of the pattern `p :: ps` by
`rep`, exactly like Python's `str.replace`.  The `Nat` argument is fuel;
every step consumes at least one character of `s`, so any fuel at least
`s.length` yields the replacement of the whole string. -/
def replaceAllAux (p : Char) (ps rep : List Char) : Nat → List Char → List Char
  | _, [] => []
  | 0, s => s
  | n + 1, c :: rest =>
    if (p :: ps).isPrefixOf (c :: rest) then
      rep ++ replaceAllAux p ps rep n (rest.drop ps.length)
    else
      c :: replaceAllAux p ps rep n rest

/-- Embedding of Python's `s.replace(pat, rep)` for list-of-character
strings.  For the empty pattern the program never calls `replace`, and we
return `s` unchanged. -/
def replaceAll (pat rep s : List Char) : List Char :=
  match pat with
  | [] => s
  | p :: ps => replaceAllAux p ps rep s.length s

/-- Decimal digit characters of a natural number, auxiliary fuel-indexed
worker (fuel at least `n` suffices). -/
def natCharsAux : Nat → Nat → List Char
  | 0, _ => []
  | fuel + 1, n =>
    if n = 0 then []
    else natCharsAux fuel (n / 10) ++ [Char.ofNat (48 + n % 10)]

/-- Decimal representation of a natural number as characters, matching
Python's `str(i)` / f-string interpolation of an integer. -/
def natChars (n : Nat) : List Char :=
  if n = 0 then ['0'] else natCharsAux n n

/-- Inline citation marker `"[i]"` as written by the search API, the
pattern of the replacement loop `content.replace(f"[{i}]", ...)`. -/
def markerChars (i : Nat) : List Char :=
  '[' :: natChars i ++ [']']

/-- Replacement text `f"({i}][{citation})"` of the citation loop. -/
def citeInline (i : Nat) (citation : List Char) : List Char :=
  '(' :: natChars i ++ ']' :: '[' :: citation ++ [')']

/-- Embedding of the citation loop starting at index `i`:
`for i, citation in enumerate(resp.citations, start=1): content =
content.replace(f"[{i}]", f"({i}][{citation})")`. -/
def renderFrom (i : Nat) (citations : List (List Char)) (content : List Char) :
    List Char :=
  match citations with
  | [] => content
  | cite :: rest => renderFrom (i + 1) rest (replaceAll (markerChars i) (citeInline i cite) content)

/-- Citation rendering of one answer: the loop of lines 176-177 of
`src/main.py`, with `enumerate(resp.citations, start=1)`. -/
def renderCitations (citations : List (List Char)) (content : List Char) : List Char :=
  renderFrom 1 citations content

/-- Placeholder string `"{company_name}"` used by every question
template. -/
def placeholderChars : List Char := "{company_name}".data

/-- Embedding of `q.format(company_name=company_name)`.  Every template of
the catalog contains the single field `{company_name}` and no other brace,
so Python's `str.format` substitutes each occurrence of the placeholder by
the company name (the substituted value is not rescanned). -/
def fmtCompany (company q : List Char) : List Char :=
  replaceAll placeholderChars company q

/-- Embedding of the Pydantic model `PerplexityMessage` of `src/main.py`. -/
structure PerplexityMessage where
  content : List Char
  deriving DecidableEq

/-- Embedding of the Pydantic model `PerplexityChoice`. -/
structure PerplexityChoice where
  message : PerplexityMessage
  deriving DecidableEq

/-- Embedding of the Pydantic model `PerplexityResponse`.  The field
types follow the source: `citations: list[str]` and
`choices: list[PerplexityChoice]`. -/
structure PerplexityResponse where
  citations : List (List Char)
  choices : List PerplexityChoice
  deriving DecidableEq

/-- Four-bit hexadecimal digit character, lowercase, as produced by
Python's `json.dumps` unicode escapes. -/
def hexDigitChar (d : Nat) : Char :=
  if d < 10 then Char.ofNat (48 + d) else Char.ofNat (87 + d)

/-- Four-digit hexadecimal rendering used in `\uXXXX` escapes. -/
def hex4 (n : Nat) : List Char :=
  [hexDigitChar (n / 4096 % 16), hexDigitChar (n / 256 % 16),
   hexDigitChar (n / 16 % 16), hexDigitChar (n % 16)]

/-- Escaping of one character inside a JSON string literal, modelling
CPython's `json.dumps` with its default `ensure_ascii=True`: quote,
backslash and the named control characters get two-character escapes,
other control characters and every non-ASCII character get `\uXXXX`
escapes (a surrogate pair above the basic plane), all else is copied. -/
def jsonEscChar (ch : Char) : List Char :=
  if ch = '"' then ['\\', '"']
  else if ch = '\\' then ['\\', '\\']
  else if ch = '\n' then ['\\', 'n']
  else if ch = '\t' then ['\\', 't']
  else if ch = '\r' then ['\\', 'r']
  else if ch.toNat = 8 then ['\\', 'b']
  else if ch.toNat = 12 then ['\\', 'f']
  else if ch.toNat < 32 ∨ 126 < ch.toNat then
    if ch.toNat < 65536 then '\\' :: 'u' :: hex4 ch.toNat
    else
      '\\' :: 'u' :: hex4 (55296 + (ch.toNat - 65536) / 1024) ++
        '\\' :: 'u' :: hex4 (56320 + (ch.toNat - 65536) % 1024)
  else [ch]

/-- JSON string-literal escaping of a whole string. -/
def jsonEsc (s : List Char) : List Char :=
  s.flatMap jsonEscChar

/-- One `"key": "value"` item of the serialized mapping. -/
def jsonPairChars (kv : List Char × List Char) : List Char :=
  '"' :: jsonEsc kv.1 ++ '"' :: ':' :: ' ' :: '"' :: jsonEsc kv.2 ++ ['"']

/-- Embedding of `json.dumps(results, indent=4)` for the flat
string-to-string mapping `results`, in insertion order: items are
indented by four spaces and separated by a comma and a newline, matching
CPython's output for a non-empty dict (and `"{}"` for an empty one). -/
def jsonDumps (pairs : List (List Char × List Char)) : List Char :=
  match pairs with
  | [] => "\x7b\x7d".data
  | _ :: _ =>
    "\x7b\n    ".data ++
      List.intercalate ",\n    ".data (pairs.map jsonPairChars) ++ "\n\x7d".data

/-- Question templates `questions1` of `src/main.py`. -/
def questions1 : List (List Char) :=
  ["What are {company_name} core projects and recent developments?".data,
   "What are the main products or services that {company_name} offers?".data,
   "What recent projects or initiatives have {company_name} launched?".data,
   "Have {company_name} pivoted or expanded into new areas recently?".data,
   "What technologies or methodologies are {company_name} investing in?".data]

/-- Question templates `questions2`. -/
def questions2 : List (List Char) :=
  ["How are {company_name} communicating their vision and direction?".data,
   "What kind of public speeches, interviews, or conference presentations have {company_name} leaders given?".data,
   "Have {company_name} published any white papers, research articles, or thought leadership pieces recently?".data,
   "How does {company_name} position themselves in industry discussions (e.g., sustainability, innovation, longevity)?".data]

/-- Question templates `questions3`. -/
def questions3 : List (List Char) :=
  ["What funding rounds have {company_name} completed, and how much capital have they raised?".data,
   "Who are {company_name} investors, and what is the scale of their financial backing?".data,
   "Are there any publicly available financial reports or statements of {company_name}?".data]

/-- Question templates `questions4`. -/
def questions4 : List (List Char) :=
  ["How reputable and influential is {company_name} in their industry?".data,
   "What awards, recognitions, or certifications has {company_name} received?".data,
   "How is {company_name} perceived by industry experts and analysts?".data,
   "What partnerships or collaborations do {company_name} have with other well-known organizations?".data,
   "Are there any customer testimonials, case studies, or independent reviews of {company_name}?".data]

/-- Question templates `questions5`. -/
def questions5 : List (List Char) :=
  ["What are potential concerns or ethical considerations of {company_name}?".data,
   "Are there any controversies or ethical debates surrounding {company_name} products or services?".data,
   "What is the feedback from {company_name} customers and the broader public?".data,
   "Do {company_name} have clear policies regarding sustainability, ethical practices, or data privacy?".data]

/-- Question templates `questions6`. -/
def questions6 : List (List Char) :=
  ["What is the {company_name} long-term vision and roadmap?".data,
   "How do {company_name} differentiate themselves from competitors?".data,
   "What are the key challenges {company_name} currently face?".data,
   "How do {company_name} handle innovation, and what is their approach to research and development?".data]

/-- Embedding of the dict `group_questions` as an ordered association
list of group title and question templates; Python dicts iterate in
insertion order, which is the order below. -/
def group_questions : List (List Char × List (List Char)) :=
  [("What are their core projects and recent developments?".data, questions1),
   ("How are they communicating their vision and direction?".data, questions2),
   ("What is their financial health and funding status?".data, questions3),
   ("How reputable and influential are they in their industry?".data, questions4),
   ("What are potential concerns or ethical considerations?".data, questions5),
   ("What additional aspects should I consider?".data, questions6)]

/-- All 25 question templates of the catalog, in catalog order. -/
def allTemplates : List (List Char) :=
  group_questions.flatMap Prod.snd

/-- Separator joining the serialized group results:
`"\n--------------\n".join(overall_results)` (line 198) and the download
separator of line 252 are the same fourteen-dash literal. -/
def sepChars : List Char := "\n--------------\n".data

/-- Building the per-group `results` dict (lines 171-178): iterate
`zip(responses, questions)` in order, read `resp.choices[0]` (an
`IndexError` when `choices` is empty, embedded as `none`), render the
citations into the content, and record the pair keyed by the original
unformatted question.  The templates of each group are pairwise distinct,
so the insertion-ordered association list is a faithful embedding of the
dict. -/
def buildResults (templates : List (List Char)) (resps : List PerplexityResponse) :
    Option (List (List Char × List Char)) :=
  (resps.zip templates).mapM fun rt =>
    match rt.1.choices.head? with
    | none => none
    | some choice => some (rt.2, renderCitations rt.1.citations choice.message.content)

/-- Result of the group-processing loop (lines 150-187).  The fields
record the questions dispatched to the search API (in order), one slot
per processed group (`none` when the group's parallel dispatch raised and
the `except` branch reported an error and skipped the group), the titles
reported by `st.error`, and whether an uncaught exception aborted the
whole script run. -/
structure GroupPhase where
  calls : List (List Char)
  slots : List (Option (List Char))
  errors : List (List Char)
  crashed : Bool
  deriving DecidableEq

/-- Embedding of the `for group_title, questions in group_questions.items()`
loop.  The search oracle maps a formatted question to `some` response or
`none` for a raised exception; `joblib.Parallel` preserves input order and
raises as soon as any single call raises, which is embedded by `mapM`.
The `try/except` of lines 162-169 covers only the dispatch: a dispatch
failure reports the group title and continues with the next group, while
an `IndexError` from `resp.choices[0]` inside the results-building loop
(line 174) is uncaught and aborts the run with no further groups
processed. -/
def processGroups (search : List Char → Option PerplexityResponse) (company : List Char) :
    List (List Char × List (List Char)) → GroupPhase
  | [] => ⟨[], [], [], false⟩
  | (title, qs) :: rest =>
    let formatted := qs.map (fmtCompany company)
    match formatted.mapM search with
    | none =>
      let g := processGroups search company rest
      ⟨formatted ++ g.calls, none :: g.slots, title :: g.errors, g.crashed⟩
    | some resps =>
      match buildResults qs resps with
      | none => ⟨formatted, [], [], true⟩
      | some pairs =>
        let g := processGroups search company rest
        ⟨formatted ++ g.calls, some (jsonDumps pairs) :: g.slots, g.errors, g.crashed⟩

/-- Fixed prefix of the synthesis prompt: the f-string of lines 212-237 up
to the interpolation of `combined_info`. -/
def promptPre : List Char :=
  ("\nI am a business development professional at a consulting company specializing in Data, Machine Learning, and Software Engineering. We have proven expertise in AI and scalable data pipelines. For my upcoming call, I need a discussion guide that focuses on our Provectus IDP offering—with a backup \"moon shot\" AI idea—customized to the prospect.\n\n## 1. Company Summary\n- **Overview:** Provide a brief summary of the company based on the searched information.\n- **Services:** Summarize the company’s main services.\n- **Public/Private Status:** \n  - If public, include the stock ticker, a summary of the stock trend over the last 12 months, and a brief 10-K summary.\n  - If private, summarize the “Crunchbase health” (e.g., when they last raised a funding round and total funding) along with 1-2 sentences on the overall company health.\n\n## 2. Provectus IDP Value Thesis\n- **Thesis Statement:** Summarize in 1-2 sentences how Provectus IDP can help the company save money and improve end user outcomes.\n  \n## 3. Identified New Business Opportunities\n- **Topics to Explore:**  \n  - **Primary:** Why would Provectus IDP be a great fit for your company?\n  - **Fallback:** If IDP is not the right fit, discuss 1-2 cool AI use cases as an alternative.\n- **Open-Ended Questions:**  \n  - Customize questions for IDP use cases, focusing on ML/AI in the context of life sciences.\n  - Provide conversation starters specifically tailored to explore the benefits of Provectus IDP.\n\n## 4. Develop and Nurture Client Relationships\n- **Key Questions:** Provide 1-2 concise, prompting questions to help build rapport and further explore how Provectus IDP aligns with their needs.\n\n**Additional Information:**  \nHere is the searched information about the company: ").data

/-- Fixed suffix of the synthesis prompt after `combined_info`. -/
def promptPost : List Char :=
  "\n\n*Please format your response using Markdown for clarity and ease of reading.*\n".data

/-- The single synthesis-request content built around the transcript. -/
def promptOf (combined : List Char) : List Char :=
  promptPre ++ combined ++ promptPost

/-- Observable outcome of one click of the `Analyze Company` button.
The fields record, in order: whether the input-validation error was
shown; the questions sent to the search API; the per-group slots and the
reported group errors of `GroupPhase`; whether an uncaught exception
aborted the run; `combined_info` when the loop completed; whether the
missing-OpenAI-key error was shown; the prompt sent to the synthesis API
(`none` when it was never called); the generated guide; whether the
synthesis `except` branch reported an error; and the content offered by
the download button (`none` when no download was offered). -/
structure AppOutcome where
  inputError : Bool
  searchCalls : List (List Char)
  groupSlots : List (Option (List Char))
  groupErrors : List (List Char)
  crashed : Bool
  transcript : Option (List Char)
  missingSynthKey : Bool
  synthPrompt : Option (List Char)
  guide : Option (List Char)
  synthFailed : Bool
  download : Option (List Char)
  deriving DecidableEq

/-- Embedding of the button handler (lines 136-263).  The validation
`if not company_name.strip()` shows an error and does nothing else; the
truthiness test of the stripped string is equivalent to every character
being whitespace.  Otherwise the six groups are processed; a crash
(uncaught `IndexError`) aborts the script before anything below the loop
runs.  `overall_results` receives one serialization per successful group
(line 185), `combined_info` joins them with the separator (line 198), and
with an available key the synthesis oracle is called on the prompt: on
success the guide is shown and
`f"{combined_info}\n--------------\n{conversation_topics}"` is offered
for download; on a raised exception the `except` branch of line 262
reports the error and no download is offered. -/
def analyze (search : List Char → Option PerplexityResponse)
    (synth : List Char → Option (List Char)) (hasSynthKey : Bool)
    (company : List Char) : AppOutcome :=
  if company.all Char.isWhitespace then
    ⟨true, [], [], [], false, none, false, none, none, false, none⟩
  else
    let g := processGroups search company group_questions
    if g.crashed then
      ⟨false, g.calls, g.slots, g.errors, true, none, false, none, none, false, none⟩
    else
      let combined := List.intercalate sepChars (g.slots.filterMap id)
      if hasSynthKey then
        match synth (promptOf combined) with
        | some guideText =>
          ⟨false, g.calls, g.slots, g.errors, false, some combined, false,
           some (promptOf combined), some guideText, false,
           some (combined ++ sepChars ++ guideText)⟩
        | none =>
          ⟨false, g.calls, g.slots, g.errors, false, some combined, false,
           some (promptOf combined), none, true, none⟩
      else
        ⟨false, g.calls, g.slots, g.errors, false, some combined, true, none, none,
         false, none⟩

/-- JSON values, for the embedding of
`PerplexityResponse.model_validate_json(response.text)`.  Numbers keep
their lexeme; the validated schema has no numeric field, so their value
is never consulted. -/
inductive JsonVal where
  | null : JsonVal
  | bool : Bool → JsonVal
  | num : List Char → JsonVal
  | str : List Char → JsonVal
  | arr : List JsonVal → JsonVal
  | obj : List (List Char × JsonVal) → JsonVal

/-- JSON insignificant whitespace. -/
def jsonSkipWs (s : List Char) : List Char :=
  s.dropWhile fun c => c = ' ' ∨ c = '\n' ∨ c = '\t' ∨ c = '\r'

/-- Hexadecimal value of one character, when it is a hex digit. -/
def hexVal (c : Char) : Option Nat :=
  if 48 ≤ c.toNat ∧ c.toNat ≤ 57 then some (c.toNat - 48)
  else if 97 ≤ c.toNat ∧ c.toNat ≤ 102 then some (c.toNat - 87)
  else if 65 ≤ c.toNat ∧ c.toNat ≤ 70 then some (c.toNat - 55)
  else none

/-- Body of a JSON string literal after the opening quote: returns the
decoded characters and the input following the closing quote.  Escapes
follow RFC 8259 as implemented by `json.loads` (without recombination of
surrogate pairs, which no claim exercises); raw control characters are
rejected. -/
def parseStringBody : Nat → List Char → Option (List Char × List Char)
  | 0, _ => none
  | _ + 1, [] => none
  | fuel + 1, c :: rest =>
    if c = '"' then some ([], rest)
    else if c = '\\' then
      match rest with
      | [] => none
      | e :: rest2 =>
        let decoded : Option (Char × List Char) :=
          if e = '"' then some ('"', rest2)
          else if e = '\\' then some ('\\', rest2)
          else if e = '/' then some ('/', rest2)
          else if e = 'n' then some ('\n', rest2)
          else if e = 't' then some ('\t', rest2)
          else if e = 'r' then some ('\r', rest2)
          else if e = 'b' then some (Char.ofNat 8, rest2)
          else if e = 'f' then some (Char.ofNat 12, rest2)
          else if e = 'u' then
            match rest2 with
            | h1 :: h2 :: h3 :: h4 :: rest3 =>
              match hexVal h1, hexVal h2, hexVal h3, hexVal h4 with
              | some a, some b, some c3, some d =>
                some (Char.ofNat (4096 * a + 256 * b + 16 * c3 + d), rest3)
              | _, _, _, _ => none
            | _ => none
          else none
        match decoded with
        | none => none
        | some (ch, rest') =>
          match parseStringBody fuel rest' with
          | none => none
          | some (tail, rem) => some (ch :: tail, rem)
    else if c.toNat < 32 then none
    else
      match parseStringBody fuel rest with
      | none => none
      | some (tail, rem) => some (c :: tail, rem)

/-- Lexes a JSON number (sign, integer part, optional fraction and
exponent), returning its lexeme. -/
def parseNumber (s : List Char) : Option (List Char × List Char) :=
  let isDig : Char → Bool := fun c => 48 ≤ c.toNat ∧ c.toNat ≤ 57
  let (neg, s1) := match s with
    | '-' :: t => (['-'], t)
    | _ => (([] : List Char), s)
  let intPart := s1.takeWhile isDig
  let s2 := s1.dropWhile isDig
  if intPart = [] then none
  else
    let (frac, s3) := match s2 with
      | '.' :: t =>
        let ds := t.takeWhile isDig
        if ds = [] then (([] : List Char), s2) else ('.' :: ds, t.dropWhile isDig)
      | _ => (([] : List Char), s2)
    let (expo, s4) := match s3 with
      | e :: t =>
        if e = 'e' ∨ e = 'E' then
          let (sgn, t2) := match t with
            | '+' :: u => (['+'], u)
            | '-' :: u => (['-'], u)
            | _ => (([] : List Char), t)
          let ds := t2.takeWhile isDig
          if ds = [] then (([] : List Char), s3)
          else (e :: sgn ++ ds, t2.dropWhile isDig)
        else (([] : List Char), s3)
      | _ => (([] : List Char), s3)
    some (neg ++ intPart ++ frac ++ expo, s4)

/-- Recursive-descent JSON parser with fuel, as performed by
`json.loads` inside Pydantic's `model_validate_json`: returns the value
and the remaining input.  A non-empty array suffix is parsed by
re-entering the parser on the remainder prefixed with an opening bracket
and prepending the parsed item, and likewise for objects, so the whole
parser is a single structural recursion on its fuel; each entry consumes
at least one character, so a fuel of twice the input length is always
sufficient. -/
def parseVal : Nat → List Char → Option (JsonVal × List Char)
  | 0, _ => none
  | fuel + 1, s =>
    match jsonSkipWs s with
    | [] => none
    | c :: rest =>
      if c = '"' then
        match parseStringBody (rest.length + 1) rest with
        | none => none
        | some (str, rem) => some (.str str, rem)
      else if c = '[' then
        match jsonSkipWs rest with
        | ']' :: rem => some (.arr [], rem)
        | _ =>
          match parseVal fuel rest with
          | none => none
          | some (v, rem) =>
            match jsonSkipWs rem with
            | ']' :: rem2 => some (.arr [v], rem2)
            | ',' :: rem2 =>
              match parseVal fuel ('[' :: rem2) with
              | some (.arr vs, rem3) => some (.arr (v :: vs), rem3)
              | _ => none
            | _ => none
      else if c = '{' then
        match jsonSkipWs rest with
        | '}' :: rem => some (.obj [], rem)
        | _ =>
          match jsonSkipWs rest with
          | '"' :: rest2 =>
            match parseStringBody (rest2.length + 1) rest2 with
            | none => none
            | some (key, rem) =>
              match jsonSkipWs rem with
              | ':' :: rem2 =>
                match parseVal fuel rem2 with
                | none => none
                | some (v, rem3) =>
                  match jsonSkipWs rem3 with
                  | '}' :: rem4 => some (.obj [(key, v)], rem4)
                  | ',' :: rem4 =>
                    match parseVal fuel ('{' :: rem4) with
                    | some (.obj kvs, rem5) => some (.obj ((key, v) :: kvs), rem5)
                    | _ => none
                  | _ => none
              | _ => none
          | _ => none
      else if c = 't' ∧ ['r', 'u', 'e'].isPrefixOf rest then
        some (.bool true, rest.drop 3)
      else if c = 'f' ∧ ['a', 'l', 's', 'e'].isPrefixOf rest then
        some (.bool false, rest.drop 4)
      else if c = 'n' ∧ ['u', 'l', 'l'].isPrefixOf rest then
        some (.null, rest.drop 3)
      else
        match parseNumber (c :: rest) with
        | none => none
        | some (lex, rem) => some (.num lex, rem)

/-- Result of `json.loads(text)`: a parsed value with nothing but
whitespace after it. -/
def jsonLoads (text : List Char) : Option JsonVal :=
  match parseVal (2 * text.length + 8) text with
  | none => none
  | some (v, rem) => if jsonSkipWs rem = [] then some v else none

/-- String extraction during schema validation. -/
def getStr : JsonVal → Option (List Char)
  | .str s => some s
  | _ => none

/-- Field lookup in a parsed JSON object; as in `json.loads`, a repeated
key keeps its last occurrence. -/
def lookupField (fields : List (List Char × JsonVal)) (key : List Char) : Option JsonVal :=
  ((fields.filter fun kv => kv.1 = key).getLast?).map Prod.snd

/-- Schema validation of `PerplexityMessage` (field `content: str`;
Pydantic ignores extra fields by default). -/
def validateMessage : JsonVal → Option PerplexityMessage
  | .obj fs => ((lookupField fs "content".data).bind getStr).map PerplexityMessage.mk
  | _ => none

/-- Schema validation of `PerplexityChoice` (field `message`). -/
def validateChoice : JsonVal → Option PerplexityChoice
  | .obj fs => ((lookupField fs "message".data).bind validateMessage).map PerplexityChoice.mk
  | _ => none

/-- Schema validation of `PerplexityResponse` (fields
`citations: list[str]` and `choices: list[PerplexityChoice]`). -/
def validateResponse : JsonVal → Option PerplexityResponse
  | .obj fs => do
    let citations ← match lookupField fs "citations".data with
      | some (.arr xs) => xs.mapM getStr
      | _ => none
    let choices ← match lookupField fs "choices".data with
      | some (.arr xs) => xs.mapM validateChoice
      | _ => none
    pure ⟨citations, choices⟩
  | _ => none

/-- Embedding of `PerplexityResponse.model_validate_json(response.text)`:
parse the body as JSON and validate the schema; `none` is the raised
`ValidationError`. -/
def model_validate_json (text : List Char) : Option PerplexityResponse :=
  (jsonLoads text).bind validateResponse

/-- Outcome of `requests.post` as seen by `search_perplexity`: either a
raised transport exception or a completed HTTP response with a status
code and a body.  `requests` does not raise on non-2xx statuses unless
`raise_for_status` is called, which `search_perplexity` never does. -/
inductive TransportResult where
  | err : List Char → TransportResult
  | ok : Nat → List Char → TransportResult
  deriving DecidableEq

/-- Outcome of one `search_perplexity` call: a propagated transport
exception, a raised `ValidationError`, or a parsed response. -/
inductive SearchOutcome where
  | transportError : List Char → SearchOutcome
  | schemaError : SearchOutcome
  | parsed : PerplexityResponse → SearchOutcome
  deriving DecidableEq

/-- Embedding of `search_perplexity` (lines 48-74) from the transport
boundary on: the function posts the payload and immediately validates
`response.text` against the schema.  The status code of the completed
response is never inspected. -/
def search_perplexity : TransportResult → SearchOutcome
  | .err msg => .transportError msg
  | .ok _ body =>
    match model_validate_json body with
    | some r => .parsed r
    | none => .schemaError

/-- Content of the first choice of a response, total on responses with a
non-empty `choices` list (the default is never reached there). -/
def headContent (r : PerplexityResponse) : List Char :=
  (r.choices.headD ⟨⟨[]⟩⟩).message.content

/-- Serialization of one group under a total response oracle: the value
appended to `overall_results` for that group when every call succeeds. -/
def groupDump (resp : List Char → PerplexityResponse) (company : List Char)
    (g : List Char × List (List Char)) : List Char :=
  jsonDumps (g.2.map fun t =>
    (t, renderCitations (resp (fmtCompany company t)).citations
          (headContent (resp (fmtCompany company t)))))

/-- Canonical successful response used by concrete scenarios: no
citations, one choice. -/
def plainResponse : PerplexityResponse :=
  ⟨[], [⟨⟨"All clear.".data⟩⟩]⟩

/-- Search oracle for which every call succeeds with `plainResponse`. -/
def okOracle : List Char → Option PerplexityResponse :=
  fun _ => some plainResponse

/-- Search oracle that raises exactly on the formatted questions of the
third group (financial health) for the company name `Acme` and succeeds
elsewhere. -/
def group3FailOracle : List Char → Option PerplexityResponse :=
  fun q => if q ∈ questions3.map (fmtCompany "Acme".data) then none else some plainResponse

/-- Search oracle whose responses validate with an empty `choices` list,
driving `resp.choices[0]` into an `IndexError`. -/
def emptyChoicesOracle : List Char → Option PerplexityResponse :=
  fun _ => some ⟨[], []⟩

/-- Synthesis oracle returning a fixed guide for every prompt. -/
def synthOk : List Char → Option (List Char) :=
  fun _ => some "THE GUIDE".data

/-- Synthesis oracle that raises on every prompt. -/
def synthFail : List Char → Option (List Char) :=
  fun _ => none

/-- Response body whose JSON matches the `PerplexityResponse` schema,
as used by the status-code counterexample. -/
def body500 : List Char :=
  "\x7b\"citations\": [], \"choices\": [\x7b\"message\": \x7b\"content\": \"All good\"\x7d\x7d]\x7d".data

/-- Characters that are decimal digits, the alphabet of `natChars`. -/
def isDigits (l : List Char) : Prop :=
  ∀ c ∈ l, 48 ≤ c.toNat ∧ c.toNat ≤ 57

/-- Numeric value of a big-endian digit string, inverse of `natChars`. -/
def digitsVal (l : List Char) : Nat :=
  l.foldl (fun a c => 10 * a + (c.toNat - 48)) 0

/-- The slot contributed by one group under a given search oracle when no
response has an empty `choices` list: `none` exactly when the group's
parallel dispatch raised, otherwise the group's serialized mapping. -/
def groupSlot (search : List Char → Option PerplexityResponse) (company : List Char)
    (g : List Char × List (List Char)) : Option (List Char) :=
  ((g.2.map (fmtCompany company)).mapM search).map fun resps =>
    jsonDumps ((resps.zip g.2).map fun rt =>
      (rt.2, renderCitations rt.1.citations (headContent rt.1)))

/-! Lemmas about `replaceAll`, the embedding of `str.replace`. -/

theorem replaceAllAux_fuel (p : Char) (ps rep : List Char) :
    ∀ (m n : Nat) (s : List Char), s.length ≤ m → s.length ≤ n →
      replaceAllAux p ps rep m s = replaceAllAux p ps rep n s := by
  intro m
  induction m with
  | zero =>
    intro n s hm _
    have hs : s = [] := List.eq_nil_of_length_eq_zero (Nat.le_zero.mp hm)
    subst hs
    cases n <;> rfl
  | succ m ih =>
    intro n s hm hn
    cases s with
    | nil => cases n <;> rfl
    | cons c rest =>
      cases n with
      | zero => simp at hn
      | succ n' =>
        simp only [List.length_cons, Nat.add_le_add_iff_right] at hm hn
        have hd : (rest.drop ps.length).length ≤ rest.length := by
          rw [List.length_drop]; omega
        simp only [replaceAllAux]
        by_cases hp : (p :: ps).isPrefixOf (c :: rest) = true
        · rw [if_pos hp, if_pos hp, ih n' (rest.drop ps.length) (le_trans hd hm) (le_trans hd hn)]
        · rw [if_neg hp, if_neg hp, ih n' rest hm hn]

theorem replaceAll_nil (pat rep : List Char) : replaceAll pat rep [] = [] := by
  cases pat <;> rfl

theorem replaceAll_pos {p : Char} {ps : List Char} (rep : List Char) {s : List Char}
    (h : (p :: ps).isPrefixOf s = true) :
    replaceAll (p :: ps) rep s = rep ++ replaceAll (p :: ps) rep (s.drop (ps.length + 1)) := by
  cases s with
  | nil => simp [List.isPrefixOf] at h
  | cons c rest =>
    show replaceAllAux p ps rep (rest.length + 1) (c :: rest) = _
    simp only [replaceAllAux, if_pos h]
    rw [List.drop_succ_cons]
    show _ = rep ++ replaceAllAux p ps rep (rest.drop ps.length).length (rest.drop ps.length)
    rw [replaceAllAux_fuel p ps rep rest.length (rest.drop ps.length).length
      (rest.drop ps.length) (by rw [List.length_drop]; omega) (le_refl _)]

theorem replaceAll_neg {p : Char} {ps : List Char} (rep : List Char) {c : Char}
    {rest : List Char} (h : (p :: ps).isPrefixOf (c :: rest) = false) :
    replaceAll (p :: ps) rep (c :: rest) = c :: replaceAll (p :: ps) rep rest := by
  show replaceAllAux p ps rep (rest.length + 1) (c :: rest) = _
  rw [replaceAllAux, if_neg (by simp [h])]
  rfl

theorem replaceAll_no_occurrence {p : Char} {ps rep : List Char} :
    ∀ {s : List Char}, ¬ ((p :: ps) <:+: s) → replaceAll (p :: ps) rep s = s := by
  intro s
  induction s with
  | nil => intro _; exact replaceAll_nil _ _
  | cons c rest ih =>
    intro h
    cases hp : (p :: ps).isPrefixOf (c :: rest) with
    | true => exact absurd (List.isPrefixOf_iff_prefix.mp hp).isInfix h
    | false =>
      rw [replaceAll_neg rep hp, ih fun hi => h (List.infix_cons hi)]

theorem replaceAll_append_pattern {p : Char} {ps rep : List Char} :
    ∀ {l r : List Char}, p ∉ l →
      replaceAll (p :: ps) rep (l ++ (p :: ps) ++ r) =
        l ++ rep ++ replaceAll (p :: ps) rep r := by
  intro l
  induction l with
  | nil =>
    intro r _
    simp only [List.nil_append]
    rw [replaceAll_pos rep (List.isPrefixOf_iff_prefix.mpr (List.prefix_append _ _))]
    have hlen : ps.length + 1 = (p :: ps).length := rfl
    rw [hlen, List.drop_left]
  | cons a l' ih =>
    intro r hp
    have ha : (p == a) = false :=
      beq_eq_false_iff_ne.mpr fun e => hp (e ▸ List.mem_cons_self a l')
    have hpre : (p :: ps).isPrefixOf (a :: (l' ++ (p :: ps) ++ r)) = false := by
      rw [List.isPrefixOf_cons₂, ha, Bool.false_and]
    have hassoc : (a :: l') ++ (p :: ps) ++ r = a :: (l' ++ (p :: ps) ++ r) := by
      simp
    rw [hassoc, replaceAll_neg rep hpre,
      ih fun hm => hp (List.mem_cons_of_mem a hm)]
    simp

/-! Lemmas about decimal digit strings. -/

theorem toNat_of_digit {k : Nat} (h : k < 10) : (Char.ofNat (48 + k)).toNat = 48 + k := by
  interval_cases k <;> decide

theorem char_ne_of_toNat {a b : Char} (h : a.toNat ≠ b.toNat) : a ≠ b :=
  fun e => h (by rw [e])

theorem digitsVal_append_digit (l : List Char) (c : Char) :
    digitsVal (l ++ [c]) = 10 * digitsVal l + (c.toNat - 48) := by
  unfold digitsVal
  rw [List.foldl_append]
  rfl

theorem natCharsAux_val : ∀ (fuel n : Nat), n ≤ fuel → digitsVal (natCharsAux fuel n) = n := by
  intro fuel
  induction fuel with
  | zero =>
    intro n h
    interval_cases n
    rfl
  | succ fuel ih =>
    intro n h
    by_cases h0 : n = 0
    · subst h0; rfl
    · have hlt : n / 10 < n := Nat.div_lt_self (Nat.pos_of_ne_zero h0) (by omega)
      rw [natCharsAux, if_neg h0, digitsVal_append_digit, ih (n / 10) (by omega),
        toNat_of_digit (Nat.mod_lt _ (by omega))]
      omega

theorem natChars_val (n : Nat) : digitsVal (natChars n) = n := by
  by_cases h : n = 0
  · subst h; decide
  · rw [natChars, if_neg h]; exact natCharsAux_val n n (le_refl n)

theorem natChars_inj {m n : Nat} (h : natChars m = natChars n) : m = n := by
  have hm := natChars_val m
  rw [h, natChars_val] at hm
  omega

theorem natCharsAux_digits : ∀ (fuel n : Nat), isDigits (natCharsAux fuel n) := by
  intro fuel
  induction fuel with
  | zero => intro n c hc; simp [natCharsAux] at hc
  | succ fuel ih =>
    intro n c hc
    by_cases h0 : n = 0
    · rw [natCharsAux, if_pos h0] at hc; simp at hc
    · rw [natCharsAux, if_neg h0] at hc
      rcases List.mem_append.mp hc with h1 | h2
      · exact ih _ c h1
      · have he : c = Char.ofNat (48 + n % 10) := by simpa using h2
        subst he
        rw [toNat_of_digit (Nat.mod_lt _ (by omega))]
        have := Nat.mod_lt n (show 0 < 10 by omega)
        omega

theorem natChars_digits (n : Nat) : isDigits (natChars n) := by
  by_cases h : n = 0
  · subst h
    intro c hc
    simp [natChars] at hc
    subst hc
    decide
  · rw [natChars, if_neg h]; exact natCharsAux_digits n n

theorem natChars_ne_nil (n : Nat) : natChars n ≠ [] := by
  by_cases h : n = 0
  · subst h; decide
  · rw [natChars, if_neg h]
    cases n with
    | zero => exact absurd rfl h
    | succ m => simp [natCharsAux]

theorem digit_ne_special {c : Char} (h : 48 ≤ c.toNat ∧ c.toNat ≤ 57) :
    c ≠ '[' ∧ c ≠ ']' ∧ c ≠ '(' ∧ c ≠ ')' := by
  have h1 : ('[').toNat = 91 := rfl
  have h2 : (']').toNat = 93 := rfl
  have h3 : ('(').toNat = 40 := rfl
  have h4 : (')').toNat = 41 := rfl
  exact ⟨char_ne_of_toNat (by omega), char_ne_of_toNat (by omega),
    char_ne_of_toNat (by omega), char_ne_of_toNat (by omega)⟩

/-! Lemmas locating an infix occurrence across an append, and the
structure of citation markers. -/

theorem infix_append_split {pat x y : List Char} (h : pat <:+: x ++ y) :
    pat <:+: x ∨ pat <:+: y ∨
      ∃ u v, pat = u ++ v ∧ u ≠ [] ∧ v ≠ [] ∧ u <:+ x ∧ v <+: y := by
  obtain ⟨a, b, hab⟩ := h
  have hab' : a ++ (pat ++ b) = x ++ y := by simpa [List.append_assoc] using hab
  rcases List.append_eq_append_iff.mp hab' with ⟨w, hw1, hw2⟩ | ⟨w, hw1, hw2⟩
  · rcases List.append_eq_append_iff.mp hw2 with ⟨v, hv1, hv2⟩ | ⟨v, hv1, hv2⟩
    · exact Or.inl ⟨a, v, by rw [hw1, hv1, List.append_assoc]⟩
    · cases w with
      | nil =>
        refine Or.inr (Or.inl ⟨[], b, ?_⟩)
        simp only [List.nil_append] at hv1
        rw [hv2, ← hv1, List.nil_append]
      | cons z w' =>
        cases v with
        | nil =>
          refine Or.inl ⟨a, [], ?_⟩
          rw [List.append_nil] at hv1
          rw [hw1, ← hv1, List.append_nil]
        | cons z' v' =>
          exact Or.inr (Or.inr ⟨z :: w', z' :: v', hv1, by simp, by simp,
            ⟨a, hw1.symm⟩, ⟨b, hv2.symm⟩⟩)
  · exact Or.inr (Or.inl ⟨w, b, by rw [hw2, List.append_assoc]⟩)

theorem lb_not_mem_natChars (i : Nat) : '[' ∉ natChars i := by
  intro h
  have hd := natChars_digits i '[' h
  have h1 : ('[').toNat = 91 := rfl
  omega

theorem rb_not_mem_natChars (i : Nat) : ']' ∉ natChars i := by
  intro h
  have hd := natChars_digits i ']' h
  have h1 : (']').toNat = 93 := rfl
  omega

theorem lb_mem_marker (i : Nat) : '[' ∈ markerChars i := by
  rw [markerChars]
  exact List.mem_cons_self _ _

theorem rb_mem_marker (i : Nat) : ']' ∈ markerChars i := by
  simp [markerChars]

theorem marker_decomp {i : Nat} {u v : List Char} (h : markerChars i = u ++ v)
    (hu : u ≠ []) (hv : v ≠ []) :
    ∃ d e, isDigits d ∧ isDigits e ∧ u = '[' :: d ∧ v = e ++ [']'] := by
  cases u with
  | nil => exact absurd rfl hu
  | cons a u' =>
    rw [markerChars, List.cons_append] at h
    injection h with ha htail
    rcases List.append_eq_append_iff.mp htail with ⟨w, hw1, hw2⟩ | ⟨w, hw1, hw2⟩
    · cases w with
      | nil =>
        rw [List.append_nil] at hw1
        simp only [List.nil_append] at hw2
        exact ⟨natChars i, [], natChars_digits i, by intro c hc; simp at hc,
          by rw [ha, hw1], by rw [← hw2]; rfl⟩
      | cons z w' =>
        rw [List.cons_append] at hw2
        injection hw2 with hz htl
        exact absurd htl.symm (by simp [hv])
    · refine ⟨u', w, ?_, ?_, by rw [ha], hw2⟩
      · intro c hc
        exact natChars_digits i c (hw1 ▸ List.mem_append_left _ hc)
      · intro c hc
        exact natChars_digits i c (hw1 ▸ List.mem_append_right _ hc)

theorem marker_infix_append {i : Nat} {x y : List Char} (h : markerChars i <:+: x ++ y) :
    markerChars i <:+: x ∨ markerChars i <:+: y ∨
      ∃ d e, isDigits d ∧ isDigits e ∧ ('[' :: d) <:+ x ∧ (e ++ [']']) <+: y := by
  rcases infix_append_split h with h1 | h1 | ⟨u, v, hm, hu, hv, hux, hvy⟩
  · exact Or.inl h1
  · exact Or.inr (Or.inl h1)
  · obtain ⟨d, e, hd, he, hu', hv'⟩ := marker_decomp hm hu hv
    exact Or.inr (Or.inr ⟨d, e, hd, he, hu' ▸ hux, hv' ▸ hvy⟩)

theorem no_digit_bracket_entry {e m w : List Char} {c0 : Char}
    (hd : isDigits e) (hm : ']' ∉ m)
    (hc1 : ¬ (48 ≤ c0.toNat ∧ c0.toNat ≤ 57)) (hc2 : c0 ≠ ']')
    (h : (e ++ [']']) <+: (m ++ c0 :: w)) : False := by
  obtain ⟨t, ht⟩ := h
  rcases List.append_eq_append_iff.mp ht with ⟨w', hw1, hw2⟩ | ⟨w', hw1, hw2⟩
  · exact hm (hw1 ▸ List.mem_append_left _ (List.mem_append_right _ (by simp)))
  · cases w' with
    | nil =>
      rw [List.append_nil] at hw1
      exact hm (hw1 ▸ List.mem_append_right _ (by simp))
    | cons z w'' =>
      rw [List.cons_append] at hw2
      injection hw2 with hz _
      have hzmem : z ∈ e ++ [']'] := by
        rw [hw1]
        exact List.mem_append_right m (List.mem_cons_self z w'')
      rcases List.mem_append.mp hzmem with hc | hc
      · exact hc1 (by rw [hz]; exact hd z hc)
      · exact hc2 (by rw [hz]; simpa using hc)

theorem marker_infix_marker {i j : Nat} (h : markerChars i <:+: markerChars j) : i = j := by
  obtain ⟨a, b, hab⟩ := h
  cases a with
  | cons z a' =>
    rw [markerChars, markerChars] at hab
    rw [List.cons_append, List.cons_append] at hab
    injection hab with hz htail
    rw [List.append_eq] at htail
    have hlb : '[' ∈ natChars j ++ [']'] := by
      rw [← htail]
      simp
    rcases List.mem_append.mp hlb with hmem | hmem
    · exact absurd hmem (lb_not_mem_natChars j)
    · simp at hmem
  | nil =>
    rw [List.nil_append] at hab
    rw [markerChars, markerChars, List.cons_append] at hab
    injection hab with _ htail
    rcases List.append_eq_append_iff.mp htail with ⟨w, hw1, hw2⟩ | ⟨w, hw1, hw2⟩
    · exact absurd (hw1 ▸ List.mem_append_left _ (List.mem_append_right _ (by simp)) :
        ']' ∈ natChars j) (rb_not_mem_natChars j)
    · cases w with
      | nil =>
        rw [List.append_nil] at hw1
        exact absurd (hw1 ▸ List.mem_append_right _ (by simp) : ']' ∈ natChars j)
          (rb_not_mem_natChars j)
      | cons z w' =>
        rw [List.cons_append] at hw2
        injection hw2 with hz htl
        obtain ⟨hw0, -⟩ := List.append_eq_nil.mp htl.symm
        subst hw0
        subst hz
        have hcan := List.append_inj' hw1 (by rfl)
        exact natChars_inj hcan.1

theorem marker_infix_right_of_append {i : Nat} {x y : List Char} (hx : '[' ∉ x)
    (h : markerChars i <:+: x ++ y) : markerChars i <:+: y := by
  rcases marker_infix_append h with h1 | h1 | ⟨d, e, _, _, hux, _⟩
  · exact absurd (List.IsInfix.mem (lb_mem_marker i) h1) hx
  · exact h1
  · exact absurd (List.IsSuffix.mem (List.mem_cons_self _ _) hux) hx

theorem marker_infix_left_of_append {i : Nat} {x y : List Char} (hy : ']' ∉ y)
    (h : markerChars i <:+: x ++ y) : markerChars i <:+: x := by
  rcases marker_infix_append h with h1 | h1 | ⟨d, e, _, _, _, hvy⟩
  · exact h1
  · exact absurd (List.IsInfix.mem (rb_mem_marker i) h1) hy
  · exact absurd (List.IsPrefix.mem (List.mem_append_right _ (by simp)) hvy) hy

theorem not_marker_infix_citeInline {j i : Nat} {cite : List Char}
    (hc2 : ']' ∉ cite) : ¬ markerChars j <:+: citeInline i cite := by
  intro h
  have hshape : citeInline i cite = ('(' :: (natChars i ++ [']'])) ++ ('[' :: (cite ++ [')'])) := by
    simp [citeInline]
  rw [hshape] at h
  rcases marker_infix_append h with h1 | h1 | ⟨d, e, hd, he, hux, hvy⟩
  · refine absurd (List.IsInfix.mem (lb_mem_marker j) h1) ?_
    intro hmem
    rcases List.mem_cons.mp hmem with hz | hz
    · exact absurd hz (by decide)
    · rcases List.mem_append.mp hz with hz' | hz'
      · exact lb_not_mem_natChars i hz'
      · simp at hz'
  · refine absurd (List.IsInfix.mem (rb_mem_marker j) h1) ?_
    intro hmem
    rcases List.mem_cons.mp hmem with hz | hz
    · exact absurd hz (by decide)
    · rcases List.mem_append.mp hz with hz' | hz'
      · exact hc2 hz'
      · simp at hz'
  · exact no_digit_bracket_entry he (by simp) (by decide) (by decide)
      (by simpa using hvy : (e ++ [']']) <+: ([] ++ '[' :: (cite ++ [')'])))

/-! Lemmas about the citation-rendering loop. -/

theorem marker_cons (i : Nat) : markerChars i = '[' :: (natChars i ++ [']']) := rfl

theorem not_marker_infix_of_lb {i : Nat} {s : List Char} (h : '[' ∉ s) :
    ¬ markerChars i <:+: s :=
  fun hi => h (List.IsInfix.mem (lb_mem_marker i) hi)

theorem not_marker_infix_of_rb {i : Nat} {s : List Char} (h : ']' ∉ s) :
    ¬ markerChars i <:+: s :=
  fun hi => h (List.IsInfix.mem (rb_mem_marker i) hi)

theorem replaceAll_marker_no_occurrence {i : Nat} {rep s : List Char}
    (h : ¬ markerChars i <:+: s) : replaceAll (markerChars i) rep s = s := by
  rw [marker_cons] at h ⊢
  exact replaceAll_no_occurrence h

theorem replaceAll_marker_pattern {i : Nat} (rep : List Char) {l r : List Char}
    (hl : '[' ∉ l) :
    replaceAll (markerChars i) rep (l ++ markerChars i ++ r) =
      l ++ rep ++ replaceAll (markerChars i) rep r := by
  rw [marker_cons]
  exact replaceAll_append_pattern hl

theorem renderFrom_no_op : ∀ (cits : List (List Char)) (k : Nat) (content : List Char),
    (∀ i, k ≤ i → i < k + cits.length → ¬ markerChars i <:+: content) →
    renderFrom k cits content = content := by
  intro cits
  induction cits with
  | nil => intro k content _; rfl
  | cons cite rest ih =>
    intro k content h
    rw [renderFrom, replaceAll_marker_no_occurrence (h k (le_refl k) (by simp))]
    exact ih (k + 1) content fun i h1 h2 => h i (by omega) (by rw [List.length_cons]; omega)

theorem renderFrom_append : ∀ (a b : List (List Char)) (k : Nat) (content : List Char),
    renderFrom k (a ++ b) content = renderFrom (k + a.length) b (renderFrom k a content) := by
  intro a
  induction a with
  | nil => intro b k content; simp [renderFrom]
  | cons cite rest ih =>
    intro b k content
    rw [List.cons_append, renderFrom, renderFrom, ih]
    have hn : k + (cite :: rest).length = k + 1 + rest.length := by
      rw [List.length_cons]; omega
    rw [hn]

theorem marker_index_of_infix_context {i j : Nat} {l r : List Char}
    (hl : '[' ∉ l) (hr : ']' ∉ r)
    (h : markerChars i <:+: l ++ (markerChars j ++ r)) : i = j :=
  marker_infix_marker
    (marker_infix_left_of_append hr (marker_infix_right_of_append hl h))

theorem marker_index_of_infix_context2 {i j : Nat} {l m r : List Char}
    (hl : '[' ∉ l) (hm1 : '[' ∉ m) (hm2 : ']' ∉ m) (hr : ']' ∉ r)
    (h : markerChars i <:+: l ++ (markerChars j ++ (m ++ (markerChars j ++ r)))) :
    i = j := by
  have h1 := marker_infix_right_of_append hl h
  rcases marker_infix_append h1 with h2 | h2 | ⟨d, e, hd, he, hux, hvy⟩
  · exact marker_infix_marker h2
  · exact marker_infix_marker
      (marker_infix_left_of_append hr (marker_infix_right_of_append hm1 h2))
  · have hshape : m ++ (markerChars j ++ r) =
        m ++ '[' :: ((natChars j ++ [']']) ++ r) := by
      simp [marker_cons]
    exact absurd (hshape ▸ hvy)
      fun hvy' => no_digit_bracket_entry he hm2 (by decide) (by decide) hvy'

theorem no_marker_sub_context {i j : Nat} {l r cite : List Char}
    (hl : '[' ∉ l) (hr2 : ']' ∉ r) (hc2 : ']' ∉ cite) :
    ¬ markerChars i <:+: l ++ (citeInline j cite ++ r) := by
  intro h
  exact not_marker_infix_citeInline hc2
    (marker_infix_left_of_append hr2 (marker_infix_right_of_append hl h))

theorem no_marker_sub_context2 {i j : Nat} {l m r cite : List Char}
    (hl : '[' ∉ l) (hm1 : '[' ∉ m) (hm2 : ']' ∉ m) (hr2 : ']' ∉ r) (hc2 : ']' ∉ cite) :
    ¬ markerChars i <:+: l ++ (citeInline j cite ++ (m ++ (citeInline j cite ++ r))) := by
  intro h
  have h1 := marker_infix_right_of_append hl h
  rcases marker_infix_append h1 with h2 | h2 | ⟨d, e, hd, he, hux, hvy⟩
  · exact not_marker_infix_citeInline hc2 h2
  · exact not_marker_infix_citeInline hc2
      (marker_infix_left_of_append hr2 (marker_infix_right_of_append hm1 h2))
  · have hshape : m ++ (citeInline j cite ++ r) =
        m ++ '(' :: ((natChars j ++ ']' :: '[' :: cite ++ [')']) ++ r) := by
      simp [citeInline]
    exact no_digit_bracket_entry he hm2 (by decide) (by decide) (hshape ▸ hvy)

/-- C3: for every answer string and ordered citation list, citation
rendering rewrites every inline marker `[i]` (1-based, here `i = k + 1`
with the `k`-th citation `cite`) whose index is within the citation list
so that the citation value is embedded directly next to the marker
(`[i]` becomes `(i][cite)`), rewrites each occurrence of a duplicated
marker independently, and leaves every marker whose index exceeds the
citation list length unrewritten as its literal text.  The surrounding
pieces `l`, `m`, `r` are arbitrary strings without the bracket characters
that would interact with neighbouring markers, and the citation text may
not itself contain a closing bracket. -/
theorem citation_rendering_parts (citations : List (List Char)) (k : Nat)
    (cite l m r : List Char) (hget : citations[k]? = some cite)
    (hl : '[' ∉ l) (hm1 : '[' ∉ m) (hm2 : ']' ∉ m) (hr : ']' ∉ r) (hc : ']' ∉ cite) :
    renderCitations citations (l ++ markerChars (k + 1) ++ r) =
        l ++ citeInline (k + 1) cite ++ r
    ∧ renderCitations citations
          (l ++ markerChars (k + 1) ++ m ++ markerChars (k + 1) ++ r) =
        l ++ citeInline (k + 1) cite ++ m ++ citeInline (k + 1) cite ++ r
    ∧ ∀ j, citations.length < j →
        renderCitations citations (l ++ markerChars j ++ r) = l ++ markerChars j ++ r := by
  obtain ⟨hk, hcite⟩ := List.getElem?_eq_some_iff.mp hget
  have hsplit : citations = citations.take k ++ (cite :: citations.drop (k + 1)) := by
    conv_lhs => rw [← List.take_append_drop k citations]
    rw [List.drop_eq_getElem_cons hk, hcite]
  have htklen : (citations.take k).length = k := by
    rw [List.length_take]; omega
  have hidx : 1 + k = k + 1 := Nat.add_comm 1 k
  refine ⟨?_, ?_, ?_⟩
  · rw [renderCitations, hsplit, renderFrom_append, htklen]
    rw [renderFrom_no_op (citations.take k) 1 _ ?_]
    · rw [renderFrom, hidx]
      rw [replaceAll_marker_pattern _ hl,
        replaceAll_marker_no_occurrence (not_marker_infix_of_rb hr)]
      rw [renderFrom_no_op _ _ _ ?_]
      intro i _ _ hinf
      rw [List.append_assoc] at hinf
      exact no_marker_sub_context hl hr hc hinf
    · intro i h1 h2 hinf
      rw [List.append_assoc] at hinf
      have := marker_index_of_infix_context hl hr hinf
      omega
  · have e1 : l ++ markerChars (k + 1) ++ m ++ markerChars (k + 1) ++ r =
        l ++ markerChars (k + 1) ++ (m ++ markerChars (k + 1) ++ r) := by
      simp [List.append_assoc]
    rw [renderCitations, hsplit, renderFrom_append, htklen]
    rw [renderFrom_no_op (citations.take k) 1 _ ?_]
    · rw [renderFrom, hidx, e1]
      rw [replaceAll_marker_pattern _ hl, replaceAll_marker_pattern _ hm1,
        replaceAll_marker_no_occurrence (not_marker_infix_of_rb hr)]
      rw [renderFrom_no_op _ _ _ ?_]
      · simp [List.append_assoc]
      · intro i _ _ hinf
        have e2 : l ++ citeInline (k + 1) cite ++ (m ++ citeInline (k + 1) cite ++ r) =
            l ++ (citeInline (k + 1) cite ++ (m ++ (citeInline (k + 1) cite ++ r))) := by
          simp [List.append_assoc]
        rw [e2] at hinf
        exact no_marker_sub_context2 hl hm1 hm2 hr hc hinf
    · intro i h1 h2 hinf
      have e3 : l ++ markerChars (k + 1) ++ m ++ markerChars (k + 1) ++ r =
          l ++ (markerChars (k + 1) ++ (m ++ (markerChars (k + 1) ++ r))) := by
        simp [List.append_assoc]
      rw [e3] at hinf
      have := marker_index_of_infix_context2 hl hm1 hm2 hr hinf
      omega
  · intro j hj
    rw [renderCitations]
    apply renderFrom_no_op
    intro i h1 h2 hinf
    rw [List.append_assoc] at hinf
    have := marker_index_of_infix_context hl hr hinf
    omega

/-- Witness for C3 at a concrete input: two citations, marker 1 in
context, a duplicated marker, and the out-of-range marker 3. -/
theorem citation_rendering_parts_witness :
    renderCitations ["SourceA".data, "SourceB".data]
        ("See ".data ++ markerChars (0 + 1) ++ " twice".data) =
      "See ".data ++ citeInline (0 + 1) "SourceA".data ++ " twice".data
    ∧ renderCitations ["SourceA".data, "SourceB".data]
        ("See ".data ++ markerChars (0 + 1) ++ " and ".data ++ markerChars (0 + 1) ++
          " twice".data) =
      "See ".data ++ citeInline (0 + 1) "SourceA".data ++ " and ".data ++
        citeInline (0 + 1) "SourceA".data ++ " twice".data
    ∧ ∀ j, (["SourceA".data, "SourceB".data] : List (List Char)).length < j →
        renderCitations ["SourceA".data, "SourceB".data]
            ("See ".data ++ markerChars j ++ " twice".data) =
          "See ".data ++ markerChars j ++ " twice".data :=
  citation_rendering_parts ["SourceA".data, "SourceB".data] 0 "SourceA".data
    "See ".data " and ".data " twice".data (by decide) (by decide) (by decide)
    (by decide) (by decide) (by decide)

/-- C8: citation rendering is the identity on any answer string that
contains no `[i]` marker substring for any in-range index `i`, for every
citation list. -/
theorem render_no_markers_id (citations : List (List Char)) (content : List Char)
    (h : ∀ i, 1 ≤ i → i ≤ citations.length → ¬ markerChars i <:+: content) :
    renderCitations citations content = content := by
  rw [renderCitations]
  exact renderFrom_no_op citations 1 content fun i h1 h2 => h i h1 (by omega)

/-- Witness for C8: marker-free text is returned unchanged. -/
theorem render_no_markers_id_witness :
    renderCitations ["SourceA".data, "SourceB".data] "hello world".data =
      "hello world".data :=
  render_no_markers_id ["SourceA".data, "SourceB".data] "hello world".data
    (by
      intro i h1 h2
      have h2' : i ≤ 2 := by simpa using h2
      interval_cases i <;> decide)

/-- C6: substitution is sequential on the accumulated string, so a marker
`[2]` that only appears inside the text substituted for citation 1 is
itself rewritten by the later iteration, although the original answer
contains no such marker. -/
theorem cascading_substitution :
    ¬ ("[2]".data <:+: "[1]".data)
    ∧ renderCitations ["see [2]".data, "B".data] "[1]".data = "(1][see (2][B))".data
    ∧ "(2][B)".data <:+: "(1][see (2][B))".data := by
  refine ⟨by decide, by decide, by decide⟩

/-! Lemmas about company-name formatting. -/

theorem fmt_piece (cdata pre post : List Char) (hc : '{' ∉ cdata)
    (hpre : '{' ∉ pre) (hpost : '{' ∉ post) :
    cdata <:+: (pre ++ cdata ++ post) ∧ ¬ (placeholderChars <:+: (pre ++ cdata ++ post)) := by
  constructor
  · exact ⟨pre, post, rfl⟩
  · intro h
    have hm : '{' ∈ pre ++ cdata ++ post :=
      List.IsInfix.mem (by decide : '{' ∈ placeholderChars) h
    rcases List.mem_append.mp hm with hm1 | hm1
    · rcases List.mem_append.mp hm1 with hm2 | hm2
      · exact hpre hm2
      · exact hc hm2
    · exact hpost hm1

/-- C7 (amended): for every question template of the catalog and every
company name containing no opening brace (in particular not itself
containing the placeholder), formatting the template yields a string that
contains the company name in place of the placeholder and contains no
remaining placeholder. -/
theorem fmt_no_remaining_placeholder :
    ∀ q ∈ allTemplates, ∀ c : List Char, '{' ∉ c →
      c <:+: fmtCompany c q ∧ ¬ (placeholderChars <:+: fmtCompany c q) := by
  intro q hq c hc
  fin_cases hq
  · rw [show fmtCompany c "What are {company_name} core projects and recent developments?".data =
        "What are ".data ++ c ++ " core projects and recent developments?".data from rfl]
    exact fmt_piece c _ _ hc (by decide) (by decide)
  · rw [show fmtCompany c "What are the main products or services that {company_name} offers?".data =
        "What are the main products or services that ".data ++ c ++ " offers?".data from rfl]
    exact fmt_piece c _ _ hc (by decide) (by decide)
  · rw [show fmtCompany c "What recent projects or initiatives have {company_name} launched?".data =
        "What recent projects or initiatives have ".data ++ c ++ " launched?".data from rfl]
    exact fmt_piece c _ _ hc (by decide) (by decide)
  · rw [show fmtCompany c "Have {company_name} pivoted or expanded into new areas recently?".data =
        "Have ".data ++ c ++ " pivoted or expanded into new areas recently?".data from rfl]
    exact fmt_piece c _ _ hc (by decide) (by decide)
  · rw [show fmtCompany c "What technologies or methodologies are {company_name} investing in?".data =
        "What technologies or methodologies are ".data ++ c ++ " investing in?".data from rfl]
    exact fmt_piece c _ _ hc (by decide) (by decide)
  · rw [show fmtCompany c "How are {company_name} communicating their vision and direction?".data =
        "How are ".data ++ c ++ " communicating their vision and direction?".data from rfl]
    exact fmt_piece c _ _ hc (by decide) (by decide)
  · rw [show fmtCompany c "What kind of public speeches, interviews, or conference presentations have {company_name} leaders given?".data =
        "What kind of public speeches, interviews, or conference presentations have ".data ++ c ++ " leaders given?".data from rfl]
    exact fmt_piece c _ _ hc (by decide) (by decide)
  · rw [show fmtCompany c "Have {company_name} published any white papers, research articles, or thought leadership pieces recently?".data =
        "Have ".data ++ c ++ " published any white papers, research articles, or thought leadership pieces recently?".data from rfl]
    exact fmt_piece c _ _ hc (by decide) (by decide)
  · rw [show fmtCompany c "How does {company_name} position themselves in industry discussions (e.g., sustainability, innovation, longevity)?".data =
        "How does ".data ++ c ++ " position themselves in industry discussions (e.g., sustainability, innovation, longevity)?".data from rfl]
    exact fmt_piece c _ _ hc (by decide) (by decide)
  · rw [show fmtCompany c "What funding rounds have {company_name} completed, and how much capital have they raised?".data =
        "What funding rounds have ".data ++ c ++ " completed, and how much capital have they raised?".data from rfl]
    exact fmt_piece c _ _ hc (by decide) (by decide)
  · rw [show fmtCompany c "Who are {company_name} investors, and what is the scale of their financial backing?".data =
        "Who are ".data ++ c ++ " investors, and what is the scale of their financial backing?".data from rfl]
    exact fmt_piece c _ _ hc (by decide) (by decide)
  · rw [show fmtCompany c "Are there any publicly available financial reports or statements of {company_name}?".data =
        "Are there any publicly available financial reports or statements of ".data ++ c ++ "?".data from rfl]
    exact fmt_piece c _ _ hc (by decide) (by decide)
  · rw [show fmtCompany c "How reputable and influential is {company_name} in their industry?".data =
        "How reputable and influential is ".data ++ c ++ " in their industry?".data from rfl]
    exact fmt_piece c _ _ hc (by decide) (by decide)
  · rw [show fmtCompany c "What awards, recognitions, or certifications has {company_name} received?".data =
        "What awards, recognitions, or certifications has ".data ++ c ++ " received?".data from rfl]
    exact fmt_piece c _ _ hc (by decide) (by decide)
  · rw [show fmtCompany c "How is {company_name} perceived by industry experts and analysts?".data =
        "How is ".data ++ c ++ " perceived by industry experts and analysts?".data from rfl]
    exact fmt_piece c _ _ hc (by decide) (by decide)
  · rw [show fmtCompany c "What partnerships or collaborations do {company_name} have with other well-known organizations?".data =
        "What partnerships or collaborations do ".data ++ c ++ " have with other well-known organizations?".data from rfl]
    exact fmt_piece c _ _ hc (by decide) (by decide)
  · rw [show fmtCompany c "Are there any customer testimonials, case studies, or independent reviews of {company_name}?".data =
        "Are there any customer testimonials, case studies, or independent reviews of ".data ++ c ++ "?".data from rfl]
    exact fmt_piece c _ _ hc (by decide) (by decide)
  · rw [show fmtCompany c "What are potential concerns or ethical considerations of {company_name}?".data =
        "What are potential concerns or ethical considerations of ".data ++ c ++ "?".data from rfl]
    exact fmt_piece c _ _ hc (by decide) (by decide)
  · rw [show fmtCompany c "Are there any controversies or ethical debates surrounding {company_name} products or services?".data =
        "Are there any controversies or ethical debates surrounding ".data ++ c ++ " products or services?".data from rfl]
    exact fmt_piece c _ _ hc (by decide) (by decide)
  · rw [show fmtCompany c "What is the feedback from {company_name} customers and the broader public?".data =
        "What is the feedback from ".data ++ c ++ " customers and the broader public?".data from rfl]
    exact fmt_piece c _ _ hc (by decide) (by decide)
  · rw [show fmtCompany c "Do {company_name} have clear policies regarding sustainability, ethical practices, or data privacy?".data =
        "Do ".data ++ c ++ " have clear policies regarding sustainability, ethical practices, or data privacy?".data from rfl]
    exact fmt_piece c _ _ hc (by decide) (by decide)
  · rw [show fmtCompany c "What is the {company_name} long-term vision and roadmap?".data =
        "What is the ".data ++ c ++ " long-term vision and roadmap?".data from rfl]
    exact fmt_piece c _ _ hc (by decide) (by decide)
  · rw [show fmtCompany c "How do {company_name} differentiate themselves from competitors?".data =
        "How do ".data ++ c ++ " differentiate themselves from competitors?".data from rfl]
    exact fmt_piece c _ _ hc (by decide) (by decide)
  · rw [show fmtCompany c "What are the key challenges {company_name} currently face?".data =
        "What are the key challenges ".data ++ c ++ " currently face?".data from rfl]
    exact fmt_piece c _ _ hc (by decide) (by decide)
  · rw [show fmtCompany c "How do {company_name} handle innovation, and what is their approach to research and development?".data =
        "How do ".data ++ c ++ " handle innovation, and what is their approach to research and development?".data from rfl]
    exact fmt_piece c _ _ hc (by decide) (by decide)
/-- C7 counterexample: for the company name that is itself the
placeholder string, the formatted first template still contains the
placeholder, refuting the unrestricted claim. -/
theorem fmt_placeholder_counterexample :
    "What are {company_name} core projects and recent developments?".data ∈ allTemplates
    ∧ placeholderChars <:+:
        fmtCompany placeholderChars
          "What are {company_name} core projects and recent developments?".data :=
  ⟨by decide, by decide⟩

/-- Witness for the amended C7 at the first template and a brace-free
company name. -/
theorem fmt_no_remaining_placeholder_witness :
    "Acme".data <:+:
        fmtCompany "Acme".data
          "What are {company_name} core projects and recent developments?".data
    ∧ ¬ (placeholderChars <:+:
        fmtCompany "Acme".data
          "What are {company_name} core projects and recent developments?".data) :=
  fmt_no_remaining_placeholder
    "What are {company_name} core projects and recent developments?".data
    (by decide) "Acme".data (by decide)

/-! Lemmas about the group-processing loop. -/

theorem mapM_eq_some_map {α β : Type} (f : α → Option β) (g : α → β) :
    ∀ l : List α, (∀ a ∈ l, f a = some (g a)) → l.mapM f = some (l.map g) := by
  intro l
  induction l with
  | nil => intro _; rfl
  | cons a t ih =>
    intro h
    rw [List.mapM_cons, h a (List.mem_cons_self a t),
      ih fun b hb => h b (List.mem_cons_of_mem a hb)]
    rfl

theorem mapM_eq_none {α β : Type} (f : α → Option β) :
    ∀ {l : List α} {a : α}, a ∈ l → f a = none → l.mapM f = none := by
  intro l
  induction l with
  | nil => intro a ha; simp at ha
  | cons x t ih =>
    intro a ha hfa
    rw [List.mapM_cons]
    rcases List.mem_cons.mp ha with rfl | hm
    · rw [hfa]; rfl
    · cases hfx : f x with
      | none => rfl
      | some y => rw [ih hm hfa]; rfl

theorem mapM_mem {α β : Type} (f : α → Option β) :
    ∀ {l : List α} {v : List β}, l.mapM f = some v → ∀ b ∈ v, ∃ a ∈ l, f a = some b := by
  intro l
  induction l with
  | nil =>
    intro v hv b hb
    simp only [List.mapM_nil] at hv
    cases hv
    simp at hb
  | cons x t ih =>
    intro v hv b hb
    rw [List.mapM_cons] at hv
    cases hfx : f x with
    | none => rw [hfx] at hv; cases hv
    | some y =>
      rw [hfx] at hv
      cases ht : t.mapM f with
      | none => rw [ht] at hv; cases hv
      | some w =>
        rw [ht] at hv
        have hv' : y :: w = v := by simpa using hv
        subst hv'
        rcases List.mem_cons.mp hb with rfl | hm
        · exact ⟨x, List.mem_cons_self x t, hfx⟩
        · obtain ⟨a, ha, hfa⟩ := ih ht b hm
          exact ⟨a, List.mem_cons_of_mem x ha, hfa⟩

theorem buildResults_total :
    ∀ (resps : List PerplexityResponse) (templates : List (List Char)),
      (∀ r ∈ resps, r.choices ≠ []) →
      buildResults templates resps = some ((resps.zip templates).map fun rt =>
        (rt.2, renderCitations rt.1.citations (headContent rt.1))) := by
  intro resps templates h
  rw [buildResults]
  apply mapM_eq_some_map
  intro rt hrt
  have hne : rt.1.choices ≠ [] := h rt.1 (List.of_mem_zip hrt).1
  cases hcc : rt.1.choices with
  | nil => exact absurd hcc hne
  | cons ch rest =>
    have h2 : headContent rt.1 = ch.message.content := by rw [headContent, hcc]; rfl
    simp only [List.head?_cons, h2]

theorem processGroups_safe (search : List Char → Option PerplexityResponse)
    (company : List Char)
    (hsafe : ∀ q r, search q = some r → r.choices ≠ []) :
    ∀ gs : List (List Char × List (List Char)),
      processGroups search company gs =
        ⟨gs.flatMap fun g => g.2.map (fmtCompany company),
         gs.map (groupSlot search company),
         (gs.filter fun g =>
           ((g.2.map (fmtCompany company)).mapM search).isNone).map Prod.fst,
         false⟩ := by
  intro gs
  induction gs with
  | nil => rfl
  | cons g rest ih =>
    obtain ⟨title, qs⟩ := g
    cases hd : (qs.map (fmtCompany company)).mapM search with
    | none =>
      simp only [processGroups, hd, ih, List.flatMap_cons, List.map_cons,
        List.filter_cons, groupSlot, Option.map_none', Option.isNone_none,
        if_true, GroupPhase.mk.injEq]
    | some resps =>
      have hch : ∀ r ∈ resps, r.choices ≠ [] := by
        intro r hr
        obtain ⟨q, _, hqr⟩ := mapM_mem search hd r hr
        exact hsafe q r hqr
      simp only [processGroups, hd]
      rw [buildResults_total resps qs hch, ih]
      simp only [List.flatMap_cons, List.map_cons, List.filter_cons, groupSlot, hd,
        Option.map_some', Option.isNone_some, Bool.false_eq_true, if_false,
        GroupPhase.mk.injEq]

theorem analyze_safe_spec (search : List Char → Option PerplexityResponse)
    (synth : List Char → Option (List Char)) (key : Bool) (company : List Char)
    (hv : company.all Char.isWhitespace = false)
    (hsafe : ∀ q r, search q = some r → r.choices ≠ []) :
    analyze search synth key company =
      ⟨false,
       group_questions.flatMap fun g => g.2.map (fmtCompany company),
       group_questions.map (groupSlot search company),
       (group_questions.filter fun g =>
         ((g.2.map (fmtCompany company)).mapM search).isNone).map Prod.fst,
       false,
       some (List.intercalate sepChars
         ((group_questions.map (groupSlot search company)).filterMap id)),
       !key,
       if key then
         some (promptOf (List.intercalate sepChars
           ((group_questions.map (groupSlot search company)).filterMap id)))
       else none,
       if key then
         synth (promptOf (List.intercalate sepChars
           ((group_questions.map (groupSlot search company)).filterMap id)))
       else none,
       key && (synth (promptOf (List.intercalate sepChars
         ((group_questions.map (groupSlot search company)).filterMap id)))).isNone,
       if key then
         (synth (promptOf (List.intercalate sepChars
           ((group_questions.map (groupSlot search company)).filterMap id)))).map
           fun gt =>
             List.intercalate sepChars
               ((group_questions.map (groupSlot search company)).filterMap id) ++
               sepChars ++ gt
       else none⟩ := by
  rw [analyze, if_neg (by simp [hv]), processGroups_safe search company hsafe]
  dsimp only
  cases key with
  | false => rfl
  | true =>
    cases hsy : synth (promptOf (List.intercalate sepChars
        ((group_questions.map (groupSlot search company)).filterMap id))) with
    | none => simp [hsy]
    | some gt => simp [hsy]

theorem mapM_isSome {α β : Type} (f : α → Option β) :
    ∀ {l : List α}, (∀ a ∈ l, (f a).isSome = true) → ∃ v, l.mapM f = some v := by
  intro l
  induction l with
  | nil => intro _; exact ⟨[], rfl⟩
  | cons x t ih =>
    intro h
    obtain ⟨y, hy⟩ := Option.isSome_iff_exists.mp (h x (List.mem_cons_self x t))
    obtain ⟨v, hv⟩ := ih fun a ha => h a (List.mem_cons_of_mem x ha)
    exact ⟨y :: v, by rw [List.mapM_cons, hy, hv]; rfl⟩

theorem filterMap_id_map_some {α β : Type} (f : α → β) (l : List α) :
    (l.map fun a => some (f a)).filterMap id = l.map f := by
  induction l with
  | nil => rfl
  | cons x t ih => simp [List.filterMap_cons, ih]

theorem zip_map_self {α β γ : Type} (f : α → β) (h : β → α → γ) :
    ∀ l : List α, ((l.map f).zip l).map (fun rt => h rt.1 rt.2) =
      l.map fun a => h (f a) a := by
  intro l
  induction l with
  | nil => rfl
  | cons x t ih => simp only [List.map_cons, List.zip_cons_cons, ih]

/-- C10: a company name that is empty or whitespace-only makes the run
show the input-validation error and do nothing else: no search call, no
group processing, no synthesis call, and no download. -/
theorem whitespace_input_rejected (search : List Char → Option PerplexityResponse)
    (synth : List Char → Option (List Char)) (key : Bool) (company : List Char)
    (h : company.all Char.isWhitespace = true) :
    analyze search synth key company =
      ⟨true, [], [], [], false, none, false, none, none, false, none⟩ := by
  rw [analyze, if_pos h]

/-- Witness for C10 at a whitespace-only company name. -/
theorem whitespace_input_rejected_witness :
    analyze okOracle synthOk true "   ".data =
      ⟨true, [], [], [], false, none, false, none, none, false, none⟩ :=
  whitespace_input_rejected okOracle synthOk true "   ".data (by decide)

/-- C5: building a group's results reads `resp.choices[0]` outside the
per-group exception handler.  When every response returned by the oracle
has a non-empty `choices` list the access is safe and the run never
crashes; for the oracle whose responses have an empty `choices` list the
uncaught `IndexError` aborts the whole run during the first group: only
the first group's five questions are ever dispatched, no group result is
recorded, and no transcript or download is produced. -/
theorem choices_head_access :
    (∀ search synth key company, (∀ q r, search q = some r → r.choices ≠ []) →
        (analyze search synth key company).crashed = false)
    ∧ (analyze emptyChoicesOracle synthOk true "TestCo".data).crashed = true
    ∧ (analyze emptyChoicesOracle synthOk true "TestCo".data).searchCalls =
        questions1.map (fmtCompany "TestCo".data)
    ∧ (analyze emptyChoicesOracle synthOk true "TestCo".data).groupSlots = []
    ∧ (analyze emptyChoicesOracle synthOk true "TestCo".data).transcript = none
    ∧ (analyze emptyChoicesOracle synthOk true "TestCo".data).download = none := by
  refine ⟨?_, by decide, by decide, by decide, by decide, by decide⟩
  intro search synth key company hsafe
  by_cases hv : company.all Char.isWhitespace = true
  · rw [whitespace_input_rejected search synth key company hv]
  · rw [analyze_safe_spec search synth key company (by simpa using hv) hsafe]

/-- Witness for the universally quantified safety half of C5. -/
theorem choices_head_access_witness :
    (analyze okOracle synthOk true "Acme".data).crashed = false :=
  choices_head_access.1 okOracle synthOk true "Acme".data
    (by intro q r h; cases h; decide)

/-- C1: if any single call of group `k` raises while every response that
is returned anywhere is well-formed, the run does not crash, group `k`
contributes `none` (its serialization is absent from `overall_results`),
its title is reported as an error, every fully successful group
contributes a serialized slot, the questions of every group are still
dispatched (subsequent groups execute), and the transcript joins exactly
the present serializations. -/
theorem group_failure_skips_group (search : List Char → Option PerplexityResponse)
    (synth : List Char → Option (List Char)) (key : Bool) (company : List Char)
    (k : Nat) (hk : k < group_questions.length)
    (hv : company.all Char.isWhitespace = false)
    (hsafe : ∀ q r, search q = some r → r.choices ≠ [])
    (hfail : ∃ q ∈ (group_questions.get ⟨k, hk⟩).2.map (fmtCompany company),
      search q = none) :
    (analyze search synth key company).inputError = false
    ∧ (analyze search synth key company).crashed = false
    ∧ (analyze search synth key company).groupSlots.length = group_questions.length
    ∧ (analyze search synth key company).groupSlots[k]? = some none
    ∧ (∀ j, ∀ hj : j < group_questions.length,
        (∀ q ∈ (group_questions.get ⟨j, hj⟩).2.map (fmtCompany company),
          (search q).isSome = true) →
        ∃ s, (analyze search synth key company).groupSlots[j]? = some (some s))
    ∧ (group_questions.get ⟨k, hk⟩).1 ∈ (analyze search synth key company).groupErrors
    ∧ (∀ j, ∀ hj : j < group_questions.length,
        ∀ q ∈ (group_questions.get ⟨j, hj⟩).2.map (fmtCompany company),
          q ∈ (analyze search synth key company).searchCalls)
    ∧ (analyze search synth key company).transcript =
        some (List.intercalate sepChars
          ((analyze search synth key company).groupSlots.filterMap id)) := by
  obtain ⟨qf, hqf, hqnone⟩ := hfail
  have hslotk : groupSlot search company (group_questions.get ⟨k, hk⟩) = none := by
    rw [groupSlot, mapM_eq_none search hqf hqnone]
    rfl
  rw [analyze_safe_spec search synth key company hv hsafe]
  refine ⟨rfl, rfl, by simp, ?_, ?_, ?_, ?_, rfl⟩
  · show (group_questions.map (groupSlot search company))[k]? = some none
    have hgk : group_questions[k]? = some (group_questions.get ⟨k, hk⟩) :=
      List.getElem?_eq_getElem hk
    rw [List.getElem?_map, hgk, Option.map_some', hslotk]
  · intro j hj hok
    obtain ⟨v, hv'⟩ := mapM_isSome search fun q hq => hok q hq
    refine ⟨jsonDumps ((v.zip (group_questions.get ⟨j, hj⟩).2).map fun rt =>
      (rt.2, renderCitations rt.1.citations (headContent rt.1))), ?_⟩
    show (group_questions.map (groupSlot search company))[j]? = _
    have hgj : group_questions[j]? = some (group_questions.get ⟨j, hj⟩) :=
      List.getElem?_eq_getElem hj
    rw [List.getElem?_map, hgj, Option.map_some']
    refine congrArg some ?_
    rw [groupSlot, hv', Option.map_some']
  · show (group_questions.get ⟨k, hk⟩).1 ∈
      (group_questions.filter fun g =>
        ((g.2.map (fmtCompany company)).mapM search).isNone).map Prod.fst
    refine List.mem_map.mpr ⟨group_questions.get ⟨k, hk⟩, List.mem_filter.mpr ⟨?_, ?_⟩, rfl⟩
    · exact List.get_mem group_questions k hk
    · rw [mapM_eq_none search hqf hqnone]
      rfl
  · intro j hj q hq
    show q ∈ group_questions.flatMap fun g => g.2.map (fmtCompany company)
    exact List.mem_flatMap.mpr ⟨group_questions.get ⟨j, hj⟩,
      List.get_mem group_questions j hj, hq⟩

/-- Witness for C1: the oracle failing exactly on the third group's
formatted questions for `Acme`. -/
theorem group_failure_skips_group_witness :
    (analyze group3FailOracle synthOk true "Acme".data).inputError = false
    ∧ (analyze group3FailOracle synthOk true "Acme".data).crashed = false
    ∧ (analyze group3FailOracle synthOk true "Acme".data).groupSlots.length =
        group_questions.length
    ∧ (analyze group3FailOracle synthOk true "Acme".data).groupSlots[2]? = some none
    ∧ (∀ j, ∀ hj : j < group_questions.length,
        (∀ q ∈ (group_questions.get ⟨j, hj⟩).2.map (fmtCompany "Acme".data),
          (group3FailOracle q).isSome = true) →
        ∃ s, (analyze group3FailOracle synthOk true "Acme".data).groupSlots[j]? =
          some (some s))
    ∧ (group_questions.get ⟨2, by decide⟩).1 ∈
        (analyze group3FailOracle synthOk true "Acme".data).groupErrors
    ∧ (∀ j, ∀ hj : j < group_questions.length,
        ∀ q ∈ (group_questions.get ⟨j, hj⟩).2.map (fmtCompany "Acme".data),
          q ∈ (analyze group3FailOracle synthOk true "Acme".data).searchCalls)
    ∧ (analyze group3FailOracle synthOk true "Acme".data).transcript =
        some (List.intercalate sepChars
          ((analyze group3FailOracle synthOk true "Acme".data).groupSlots.filterMap id)) :=
  group_failure_skips_group group3FailOracle synthOk true "Acme".data 2 (by decide)
    (by decide)
    (by
      intro q r h
      rw [group3FailOracle] at h
      split at h
      · cases h
      · cases h; decide)
    (by decide)

/-- C4: under a fully successful run the six groups contribute, in the
fixed catalog order, exactly the serializations of their template to
rendered-answer mappings; the transcript joins these six serializations
with the literal fourteen-dash separator; and the groups have template
counts 5, 4, 3, 5, 4, 4, 25 in total. -/
theorem full_run_transcript (search : List Char → Option PerplexityResponse)
    (synth : List Char → Option (List Char)) (key : Bool) (company : List Char)
    (respFn : List Char → PerplexityResponse)
    (hv : company.all Char.isWhitespace = false)
    (hs : ∀ q, search q = some (respFn q))
    (hc : ∀ q, (respFn q).choices ≠ []) :
    (analyze search synth key company).groupSlots =
        group_questions.map (fun g => some (groupDump respFn company g))
    ∧ (analyze search synth key company).transcript =
        some (List.intercalate sepChars (group_questions.map (groupDump respFn company)))
    ∧ group_questions.length = 6
    ∧ group_questions.map (fun g => g.2.length) = [5, 4, 3, 5, 4, 4]
    ∧ (group_questions.map (fun g => g.2.length)).sum = 25 := by
  have hsafe : ∀ q r, search q = some r → r.choices ≠ [] := by
    intro q r h
    rw [hs q] at h
    cases h
    exact hc q
  have hslot : ∀ g, groupSlot search company g = some (groupDump respFn company g) := by
    intro g
    rw [groupSlot, mapM_eq_some_map search respFn _ (fun q _ => hs q), Option.map_some',
      groupDump]
    congr 1
    congr 1
    rw [List.map_map]
    exact zip_map_self (respFn ∘ fmtCompany company)
      (fun rp t => (t, renderCitations rp.citations (headContent rp))) g.2
  have hfun : groupSlot search company =
      fun g => some (groupDump respFn company g) := funext hslot
  rw [analyze_safe_spec search synth key company hv hsafe]
  refine ⟨?_, ?_, by decide, by decide, by decide⟩
  · show group_questions.map (groupSlot search company) = _
    rw [hfun]
  · show some (List.intercalate sepChars
        ((group_questions.map (groupSlot search company)).filterMap id)) = _
    rw [hfun, filterMap_id_map_some]

/-- Witness for C4 with the constant successful oracle. -/
theorem full_run_transcript_witness :
    (analyze okOracle synthOk true "Acme".data).groupSlots =
        group_questions.map (fun g => some (groupDump (fun _ => plainResponse) "Acme".data g))
    ∧ (analyze okOracle synthOk true "Acme".data).transcript =
        some (List.intercalate sepChars
          (group_questions.map (groupDump (fun _ => plainResponse) "Acme".data)))
    ∧ group_questions.length = 6
    ∧ group_questions.map (fun g => g.2.length) = [5, 4, 3, 5, 4, 4]
    ∧ (group_questions.map (fun g => g.2.length)).sum = 25 :=
  full_run_transcript okOracle synthOk true "Acme".data (fun _ => plainResponse)
    (by decide) (fun _ => rfl) (fun _ => (by decide : plainResponse.choices ≠ []))

/-- C9: with the key available and only well-formed responses, a
successful synthesis call yields a download whose content is exactly the
transcript, the separator, then the guide text; a raised synthesis call
yields an error and no download (and no guide). -/
theorem download_after_synthesis (search : List Char → Option PerplexityResponse)
    (company : List Char)
    (hv : company.all Char.isWhitespace = false)
    (hsafe : ∀ q r, search q = some r → r.choices ≠ []) :
    (∀ synth (guideFn : List Char → List Char), (∀ p, synth p = some (guideFn p)) →
      ∃ t, (analyze search synth true company).transcript = some t
        ∧ (analyze search synth true company).guide = some (guideFn (promptOf t))
        ∧ (analyze search synth true company).download =
            some (t ++ sepChars ++ guideFn (promptOf t)))
    ∧ (∀ synth, (∀ p, synth p = none) →
        (analyze search synth true company).guide = none
        ∧ (analyze search synth true company).synthFailed = true
        ∧ (analyze search synth true company).download = none) := by
  constructor
  · intro synth guideFn hsy
    rw [analyze_safe_spec search synth true company hv hsafe]
    refine ⟨List.intercalate sepChars
      ((group_questions.map (groupSlot search company)).filterMap id), rfl, ?_, ?_⟩
    · show (if true then synth _ else none) = _
      rw [if_pos rfl, hsy]
    · show (if true then Option.map _ (synth _) else none) = _
      rw [if_pos rfl, hsy, Option.map_some']
  · intro synth hsy
    rw [analyze_safe_spec search synth true company hv hsafe]
    refine ⟨?_, ?_, ?_⟩
    · show (if true then synth _ else none) = none
      rw [if_pos rfl, hsy]
    · show (true && (synth _).isNone) = true
      rw [hsy]
      rfl
    · show (if true then Option.map _ (synth _) else none) = none
      rw [if_pos rfl, hsy]
      rfl

/-- Witness for C9 with the constant oracles, in both synthesis modes. -/
theorem download_after_synthesis_witness :
    (∃ t, (analyze okOracle synthOk true "Acme".data).transcript = some t
      ∧ (analyze okOracle synthOk true "Acme".data).guide =
          some "THE GUIDE".data
      ∧ (analyze okOracle synthOk true "Acme".data).download =
          some (t ++ sepChars ++ "THE GUIDE".data))
    ∧ (analyze okOracle synthFail true "Acme".data).guide = none
    ∧ (analyze okOracle synthFail true "Acme".data).synthFailed = true
    ∧ (analyze okOracle synthFail true "Acme".data).download = none := by
  have hsafe : ∀ q r, okOracle q = some r → r.choices ≠ [] := by
    intro q r h
    cases h
    decide
  have h := download_after_synthesis okOracle "Acme".data (by decide) hsafe
  exact ⟨h.1 synthOk (fun _ => "THE GUIDE".data) (fun _ => rfl),
    h.2 synthFail fun _ => rfl⟩

/-- C2 counterexample: a completed response with the non-2xx status 500
whose body happens to match the schema is returned as a parsed result;
`search_perplexity` does not raise merely because the status is not 2xx. -/
theorem status_ignored_counterexample :
    ¬ (200 ≤ 500 ∧ 500 < 300)
    ∧ search_perplexity (.ok 500 body500) = .parsed ⟨[], [⟨⟨"All good".data⟩⟩]⟩ :=
  ⟨by decide, by decide⟩

/-- C2 (amended): a transport error propagates as a fatal error, the
result of a completed response depends only on its body and never on its
status code, and the call raises exactly when the body fails schema
validation; there is no retry because the embedding performs a single
transport interaction. -/
theorem search_failure_modes :
    (∀ msg, search_perplexity (.err msg) = .transportError msg)
    ∧ (∀ st st' body, search_perplexity (.ok st body) = search_perplexity (.ok st' body))
    ∧ (∀ st body, model_validate_json body = none →
        search_perplexity (.ok st body) = .schemaError)
    ∧ (∀ st body r, model_validate_json body = some r →
        search_perplexity (.ok st body) = .parsed r) := by
  refine ⟨fun msg => rfl, fun st st' body => rfl, ?_, ?_⟩
  · intro st body h
    rw [search_perplexity, h]
  · intro st body r h
    rw [search_perplexity, h]

/-- Witness for the amended C2 at concrete transport outcomes. -/
theorem search_failure_modes_witness :
    search_perplexity (.err "connection reset".data) =
        .transportError "connection reset".data
    ∧ search_perplexity (.ok 200 body500) = search_perplexity (.ok 500 body500)
    ∧ search_perplexity (.ok 404 "Not Found".data) = .schemaError
    ∧ search_perplexity (.ok 500 body500) = .parsed ⟨[], [⟨⟨"All good".data⟩⟩]⟩ :=
  ⟨search_failure_modes.1 "connection reset".data,
   search_failure_modes.2.1 200 500 body500,
   search_failure_modes.2.2.1 404 "Not Found".data (by decide),
   search_failure_modes.2.2.2 500 body500 ⟨[], [⟨⟨"All good".data⟩⟩]⟩ (by decide)⟩

end BizdevHelper
